import Mathlib

/-!
Verification of the Hound ingestion/fan-out engine.

This file gives a shallow embedding of the I/O subsystem (io.c) and of the
schema parser driver-side rollback (schema.c) of the Hound library, and
proves the spec-level claims about them.

Modelling conventions:
  - Machine integers are `Nat`/`Int`; `hound_seqno` is `uint_least64_t`, so
    the increment of the per-fd sequence counter is taken modulo `2 ^ 64`.
  - `hound_err` values are `Int`, matching the enum values of hound.h.
  - Environment effects (the `read` syscall, `ppoll`, `malloc`, the driver's
    `parse` hook) are oracles passed in as explicit function arguments.
  - `XASSERT_*` macros terminate the process on violation; this is modelled
    by the distinguished outcome `cycle_status.abort` (or an abort flag).
-/

namespace Hound

/-- Error code `HOUND_OK` from hound.h. -/
def HOUND_OK : Int := 0

/-- Error code `HOUND_OOM` from hound.h. -/
def HOUND_OOM : Int := -2

/-- Error code `HOUND_IO_ERROR` from hound.h. -/
def HOUND_IO_ERROR : Int := -15

/-- Error code `HOUND_INTR` from hound.h. -/
def HOUND_INTR : Int := -21

/-- Constant `HOUND_DRIVER_MAX_RECORDS` from driver.h: the maximum number of
records a driver can produce from a single parse call. -/
def HOUND_DRIVER_MAX_RECORDS : Nat := 1000

/-- Modelled from the spec: the ABI constant `MAX_RECORDS_PER_CALL` of
section 6 of the specification (the record ceiling of one parse/poll call). -/
def MAX_RECORDS_PER_CALL : Nat := 1000

/-- Capacity of the static scratch array
`s_records[HOUND_DRIVER_MAX_RECORDS]` of io.c, which the core hands to every
driver parse invocation. -/
def s_records_len : Nat := HOUND_DRIVER_MAX_RECORDS

/-- Modulus of the `hound_seqno` type (`uint_least64_t`). -/
def U64 : Nat := 2 ^ 64

/-- Event mask `POLL_HAS_DATA` from io.c, that is `POLLIN|POLLPRI` = 3. -/
def POLL_HAS_DATA : Nat := 3

/-- Errno value EINTR. -/
def EINTR_errno : Int := 4

/-- Errno value EIO. -/
def EIO_errno : Int := 5

/-- Errno value ENOMEM. -/
def ENOMEM_errno : Int := 12

/-- The driver-filled fields of a `struct hound_record`, before the core
assigns `seqno` and `dev_id` (io.c lines 150-152). The payload pointer,
timestamp and size are abstracted into one opaque `payload` token, and
`data_id` is kept because the spec distinguishes per-data-id behaviour. -/
structure drv_record where
  data_id : Nat
  payload : Nat
deriving DecidableEq

/-- A completed `struct hound_record` as published by the I/O loop. -/
structure hound_record where
  seqno : Nat
  data_id : Nat
  dev_id : Nat
  payload : Nat
deriving DecidableEq

/-- A `struct record_info`: the refcounted wrapper around a record
(refcount.h / io.c line 154). -/
structure record_info where
  record : hound_record
  refcount : Nat
deriving DecidableEq

/-- A `struct fdctx` from io.c: per-fd driver pointer, sequence counter and
attached queues. The driver pointer is abstracted to the driver id used for
`dev_id` assignment; queues are identified by `Nat` tokens. -/
structure fdctx where
  drv_id : Nat
  next_seqno : Nat
  queues : List Nat
deriving DecidableEq

/-- The result a driver's `parse` hook leaves behind: the returned error,
the value left in the in/out byte count `*bytes` (unconsumed bytes), and the
records written into the scratch array (`record_count` is its length). -/
structure parse_result where
  err : Int
  bytes : Nat
  records : List drv_record
deriving DecidableEq

/-- One invocation of `drv_op_parse` made by `io_read`: the buffer window
passed (`pos`, `*bytes`), the capacity of the supplied scratch record array,
and the driver's response. -/
structure parse_call where
  window : List Nat
  cap : Nat
  res : parse_result
deriving DecidableEq

/-- Outcome of one `io_read` call: normal return, an error return value, or
process termination by a failed `XASSERT`. -/
inductive cycle_status where
  | ok : cycle_status
  | ret (e : Int) : cycle_status
  | abort : cycle_status
deriving DecidableEq

/-- Result of the record fan-out loop of `io_read` over one parse batch. -/
structure fan_out where
  ctx : fdctx
  acount : Nat
  published : List record_info
  pushes : List (Nat × record_info)
deriving DecidableEq

/-- The record fan-out loop of `io_read` (io.c lines 140-159): for each
record of one parse batch, allocate a `record_info` (the oracle `alloc`
decides whether `drv_alloc` succeeds at the given allocation count); on
allocation failure log and `continue` (skipping the record without touching
the sequence counter); on success assign `seqno = ctx->next_seqno++` and
`dev_id = ctx->drv->id`, initialize the wrapper's refcount to the number of
attached queues, and push the wrapper to each attached queue in order. -/
def process_records (alloc : Nat → Bool) : fdctx → Nat → List drv_record → fan_out
  | ctx, n, [] => ⟨ctx, n, [], []⟩
  | ctx, n, r :: rest =>
    if alloc n then
      let rec0 : hound_record := ⟨ctx.next_seqno, r.data_id, ctx.drv_id, r.payload⟩
      let ri : record_info := ⟨rec0, ctx.queues.length⟩
      let out := process_records alloc
        ⟨ctx.drv_id, (ctx.next_seqno + 1) % U64, ctx.queues⟩ (n + 1) rest
      ⟨out.ctx, out.acount, ri :: out.published,
        ctx.queues.map (fun q => (q, ri)) ++ out.pushes⟩
    else
      process_records alloc ctx (n + 1) rest

/-- Result of one `io_read` call: its status, the updated fd context, the
wrappers published, the queue pushes performed, the parse invocations made,
and the allocation-oracle counter. -/
structure cycle_out where
  status : cycle_status
  ctx : fdctx
  published : List record_info
  pushes : List (Nat × record_info)
  calls : List parse_call
  acount : Nat
deriving DecidableEq

/-- The parse loop of `io_read` (io.c lines 111-162), fuelled structurally;
`io_read_parse` runs it with fuel = buffer length, which is sufficient since
every re-invocation strictly shrinks the window. Each iteration with a
nonempty window calls the driver's parse on the current window with the
`s_records` scratch array; a driver error returns it (after logging); the
`XASSERT_LTE(bytes_left, bytes_total)` and `XASSERT_GT(record_count, 0)`
checks abort on violation; an unchanged byte count breaks out of the loop
(discarding the window); otherwise the batch is fanned out and the loop
re-invokes parse on the window advanced by the consumed byte count. -/
def io_read_loop (p : List Nat → parse_result) (alloc : Nat → Bool) :
    Nat → fdctx → List Nat → Nat → cycle_out
  | 0, ctx, _, n => ⟨.ok, ctx, [], [], [], n⟩
  | fuel + 1, ctx, w, n =>
    if w.length = 0 then ⟨.ok, ctx, [], [], [], n⟩
    else
      let r := p w
      let call : parse_call := ⟨w, s_records_len, r⟩
      if r.err ≠ HOUND_OK then ⟨.ret r.err, ctx, [], [], [call], n⟩
      else if w.length < r.bytes then ⟨.abort, ctx, [], [], [call], n⟩
      else if r.bytes = w.length then ⟨.ok, ctx, [], [], [call], n⟩
      else if r.records.length = 0 then ⟨.abort, ctx, [], [], [call], n⟩
      else
        let f := process_records alloc ctx n r.records
        let rest := io_read_loop p alloc fuel f.ctx
          (w.drop (w.length - r.bytes)) f.acount
        ⟨rest.status, rest.ctx, f.published ++ rest.published,
          f.pushes ++ rest.pushes, call :: rest.calls, rest.acount⟩

/-- The parse-and-fan-out phase of `io_read`, applied to the bytes the
`read` syscall placed in `s_read_buf`. -/
def io_read_parse (p : List Nat → parse_result) (alloc : Nat → Bool)
    (ctx : fdctx) (buf : List Nat) (n : Nat) : cycle_out :=
  io_read_loop p alloc buf.length ctx buf n

/-- Outcome of the `read` syscall at the top of `io_read`: interrupted by a
signal, EIO, some other errno (asserted against), or data. -/
inductive read_result where
  | intr : read_result
  | eio : read_result
  | other_err : read_result
  | bytes (data : List Nat) : read_result
deriving DecidableEq

/-- The whole of `io_read` (io.c lines 82-163): dispatch on the outcome of
the `read` syscall, then run the parse loop. -/
def io_read (p : List Nat → parse_result) (alloc : Nat → Bool)
    (ctx : fdctx) (rr : read_result) (n : Nat) : cycle_out :=
  match rr with
  | .intr => ⟨.ret HOUND_INTR, ctx, [], [], [], n⟩
  | .eio => ⟨.ret HOUND_IO_ERROR, ctx, [], [], [], n⟩
  | .other_err => ⟨.abort, ctx, [], [], [], n⟩
  | .bytes data => io_read_parse p alloc ctx data n

/-- A `struct pollfd` entry of the `s_ios.fds` array. -/
structure pollfd where
  fd : Int
  events : Nat
  revents : Nat
deriving DecidableEq

/-- The shared `s_ios` state of io.c: the index-aligned pollfd and fdctx
arrays. -/
structure s_ios_state where
  fds : List pollfd
  ctx : List fdctx
deriving DecidableEq

/-- One operation on the pause/resume barrier performed by a mutator. -/
inductive barrier_op where
  | pause : barrier_op
  | resume : barrier_op
deriving DecidableEq

/-- Outcome of a mutator call: returned error, resulting shared state, and
the trace of barrier operations it performed. -/
structure mut_out where
  err : Int
  st : s_ios_state
  trace : List barrier_op
deriving DecidableEq

/-- The mutator `io_add_fd` (io.c lines 332-384). The fcntl calls touch only
the fd's flags and are asserted; the three oracles decide whether
`xv_pushp` on `s_ios.fds`, `malloc` of the fdctx, and `xv_push` on
`s_ios.ctx` succeed. On the second and third failures the pushed pollfd
entry is popped again (`error_ctx_alloc`), and every path resumes polling
before returning. A fresh context starts with `next_seqno = 0` and no
queues. -/
def io_add_fd (st : s_ios_state) (fd : Int) (drv_id : Nat)
    (pfd_push_ok ctx_alloc_ok ctx_push_ok : Bool) : mut_out :=
  if !pfd_push_ok then
    ⟨HOUND_OOM, st, [.pause, .resume]⟩
  else
    let fds1 := st.fds ++ [⟨fd, POLL_HAS_DATA, 0⟩]
    if !ctx_alloc_ok then
      ⟨HOUND_OOM, ⟨fds1.dropLast, st.ctx⟩, [.pause, .resume]⟩
    else if !ctx_push_ok then
      ⟨HOUND_OOM, ⟨fds1.dropLast, st.ctx⟩, [.pause, .resume]⟩
    else
      ⟨HOUND_OK, ⟨fds1, st.ctx ++ [⟨drv_id, 0, []⟩]⟩, [.pause, .resume]⟩

/-- The mutator `io_add_queue` (io.c lines 406-424), acting on the fdctx
found for the fd. The oracle decides whether `xv_push` on the queue vector
succeeds; on failure the function returns `HOUND_OOM` directly, without
reaching the `io_resume_poll` call. -/
def io_add_queue (c : fdctx) (q : Nat) (push_ok : Bool) :
    Int × fdctx × List barrier_op :=
  if !push_ok then
    (HOUND_OOM, c, [.pause])
  else
    (HOUND_OK, ⟨c.drv_id, c.next_seqno, c.queues ++ [q]⟩, [.pause, .resume])

/-- The mutator `io_remove_queue` (io.c lines 426-448): find the queue
(asserting it is attached), remove its first occurrence, resume. -/
def io_remove_queue (c : fdctx) (q : Nat) :
    cycle_status × fdctx × List barrier_op :=
  if q ∈ c.queues then
    (.ok, ⟨c.drv_id, c.next_seqno, c.queues.erase q⟩, [.pause, .resume])
  else
    (.abort, c, [.pause])

/-- The mutator `io_remove_fd` (io.c lines 386-404): `get_fd_index` asserts
the fd is present (before pausing), then both aligned entries are removed
under the barrier. -/
def io_remove_fd (st : s_ios_state) (fd : Int) :
    cycle_status × s_ios_state × List barrier_op :=
  match st.fds.findIdx? (fun p => p.fd == fd) with
  | none => (.abort, st, [])
  | some i => (.ok, ⟨st.fds.eraseIdx i, st.ctx.eraseIdx i⟩, [.pause, .resume])

/-- Outcome of the `ppoll` call of `io_poll` (io.c line 212): failure with
a given errno, or readiness of `n` fds. -/
inductive ppoll_result where
  | intr : ppoll_result
  | enomem : ppoll_result
  | eio : ppoll_result
  | other_err : ppoll_result
  | ready (n : Int) : ppoll_result
deriving DecidableEq

/-- What the I/O loop does next after the `ppoll` call returns. -/
inductive poll_action where
  | back_to_wait : poll_action
  | abort : poll_action
  | read_fds (n : Int) : poll_action
deriving DecidableEq

/-- How `io_poll` handles the result of `ppoll` (io.c lines 212-229),
returning the errnos logged and the next action. On EINTR the loop
`continue`s back to `io_wait_for_ready`. On ENOMEM or EIO it logs; but the
subsequent `XASSERT_GT(fds, 0)` is outside the error branch and is reached
with `fds = -1`, so the assertion fails and the process terminates. Other
errnos hit `XASSERT_ERROR`. On success (`fds > 0`) the fd scan runs. -/
def io_poll_wake : ppoll_result → List Int × poll_action
  | .intr => ([], .back_to_wait)
  | .enomem => ([ENOMEM_errno], .abort)
  | .eio => ([EIO_errno], .abort)
  | .other_err => ([], .abort)
  | .ready n => ([], if 0 < n then .read_fds n else .abort)

/-- Result of the fd scan of one `io_poll` cycle: the fds whose `io_read`
ran to completion (in scan order), the errors logged, and whether an
assertion aborted the scan. The scan has no error return value: `io_poll`
never surfaces an error to any caller. -/
structure fd_loop_out where
  processed : List Int
  logged : List Int
  aborted : Bool
deriving DecidableEq

/-- The fd scan of `io_poll` (io.c lines 232-250): walk the pollfd array
while the ready count is positive; skip entries with no revents; assert
ready events are data events; call `io_read` (whose returned error the
oracle `readf` gives per fd); on `HOUND_INTR` break out (someone wants to
pause); otherwise decrement the ready count, and on any other error log it
and `continue` with the next fd. -/
def io_poll_fd_loop (readf : Int → Int) : List pollfd → Int → fd_loop_out
  | [], _ => ⟨[], [], false⟩
  | pfd :: rest, fds =>
    if fds ≤ 0 then ⟨[], [], false⟩
    else if pfd.revents = 0 then io_poll_fd_loop readf rest fds
    else if pfd.revents &&& POLL_HAS_DATA = 0 then ⟨[], [], true⟩
    else
      let e := readf pfd.fd
      if e = HOUND_INTR then ⟨[], [], false⟩
      else
        let out := io_poll_fd_loop readf rest (fds - 1)
        if e ≠ HOUND_OK then
          ⟨pfd.fd :: out.processed, e :: out.logged, out.aborted⟩
        else
          ⟨pfd.fd :: out.processed, out.logged, out.aborted⟩

/-- One step of the I/O thread between two waits: ordinary computation
(reads, parsing, the ready-wait), or entry into the `ppoll` wait. -/
inductive io_thread_step where
  | compute : io_thread_step
  | ppoll_wait : io_thread_step
deriving DecidableEq

/-- Signal-delivery model for the pause barrier, following the code comment
of `io_init` (io.c lines 458-465) and the semantics of `pthread_sigmask`
and `ppoll(2)`. `io_init` blocks `PAUSE_SIGNAL` in every thread before the
I/O thread is spawned and saves the prior mask in `s_origset`; the only
place the signal is unblocked is the mask window of the `ppoll` call, which
passes `s_origset`. Hence during a `compute` step a delivered signal merely
stays pending (the mask blocks it, so nothing can consume it), and at the
first `ppoll_wait` step the call returns interrupted exactly when a signal
is pending and `s_origset` does not block it. The function returns what the
first `ppoll` wait of the step list observes: `some true` if it is
interrupted, `some false` if it starts blocking undisturbed, `none` if the
thread never reaches a wait. -/
def first_wait_interrupted (orig_blocks_pause : Bool) :
    Bool → List io_thread_step → Option Bool
  | _, [] => none
  | pending, .compute :: rest => first_wait_interrupted orig_blocks_pause pending rest
  | pending, .ppoll_wait :: _ => some (pending && !orig_blocks_pause)

/-- One YAML document processed by the schema parser's main loop
(schema.c lines 353-379): either `parse_doc` fills descriptor `d`
successfully, or it fails with error `e` leaving the partially constructed
descriptor `d` in the vector. -/
inductive doc_result where
  | good (d : Nat) : doc_result
  | bad (d : Nat) (e : Int) : doc_result
deriving DecidableEq

/-- The document loop of `parse` in schema.c: push a fresh descriptor slot
for each document (the oracle decides whether `xv_pushp` succeeds), fill it
with `parse_doc`, and stop at the first failure, leaving every descriptor
pushed so far (including a partially constructed one) in the vector. -/
def schema_parse_loop (push_ok : Nat → Bool) :
    Nat → List Nat → List doc_result → Int × List Nat
  | _, acc, [] => (HOUND_OK, acc)
  | k, acc, dr :: rest =>
    if !push_ok k then (HOUND_OOM, acc)
    else
      match dr with
      | .good d => schema_parse_loop push_ok (k + 1) (acc ++ [d]) rest
      | .bad d e => (e, acc ++ [d])

/-- The descriptors the schema parser's loop pushes into its vector, as a
function of the document stream and the push oracle alone. -/
def pushed_descs (push_ok : Nat → Bool) : Nat → List doc_result → List Nat
  | _, [] => []
  | k, dr :: rest =>
    if !push_ok k then []
    else
      match dr with
      | .good d => d :: pushed_descs push_ok (k + 1) rest
      | .bad d _ => [d]

/-- Outcome of `parse` in schema.c: the returned error, the descriptor
array handed to the caller (if any), and the descriptors destroyed by the
failure path. -/
structure schema_parse_out where
  err : Int
  returned : Option (List Nat)
  destroyed : List Nat
deriving DecidableEq

/-- The function `parse` of schema.c (lines 330-404): run the document
loop; on success copy the vector into a fresh output array (the oracle
`out_alloc_ok` decides whether that `malloc` succeeds); on any failure
destroy every descriptor accumulated in the vector and return the error
without handing out an array. -/
def schema_parse (push_ok : Nat → Bool) (out_alloc_ok : Bool)
    (docs : List doc_result) : schema_parse_out :=
  let r := schema_parse_loop push_ok 0 [] docs
  if r.1 = HOUND_OK then
    if out_alloc_ok then ⟨HOUND_OK, some r.2, []⟩
    else ⟨HOUND_OOM, none, r.2⟩
  else ⟨r.1, none, r.2⟩

/-- The list `s, s + 1, ..., s + k - 1` of `k` consecutive naturals: the
shape the spec demands of published sequence numbers. -/
def seq_from (s : Nat) : Nat → List Nat
  | 0 => []
  | k + 1 => s :: seq_from (s + 1) k

/-- The records of a parse batch whose `record_info` allocation succeeds,
starting from allocation count `n`. -/
def alloc_filter (a : Nat → Bool) : Nat → List drv_record → List drv_record
  | _, [] => []
  | n, r :: rest =>
    if a n then r :: alloc_filter a (n + 1) rest
    else alloc_filter a (n + 1) rest

/-- Well-formedness of the trace of parse invocations of one `io_read`
cycle, stating the spec's re-invocation contract: every invocation hands
the driver the current window together with the full scratch capacity and
records the driver's actual response; an invocation is followed by another
one only if the driver succeeded, consumed at least one byte, left at least
one byte, and produced at least one record; and the next invocation's
window is the previous one advanced by exactly the consumed byte count. -/
def parse_chain (p : List Nat → parse_result) : List parse_call → Prop
  | [] => True
  | [c] => c.res = p c.window ∧ c.cap = s_records_len
  | c :: c2 :: rest =>
    c.res = p c.window ∧ c.cap = s_records_len ∧
    c.res.err = HOUND_OK ∧ c.res.bytes < c.window.length ∧
    0 < c.res.bytes ∧ c.res.records ≠ [] ∧
    c2.window = c.window.drop (c.window.length - c.res.bytes) ∧
    parse_chain p (c2 :: rest)

theorem process_records_ctx (a : Nat → Bool) (rs : List drv_record) :
    ∀ ctx n, (process_records a ctx n rs).ctx.drv_id = ctx.drv_id ∧
      (process_records a ctx n rs).ctx.queues = ctx.queues := by
  induction rs with
  | nil => intro ctx n; simp [process_records]
  | cons r rest ih =>
    intro ctx n
    by_cases h : a n
    · simp only [process_records, h, if_true]
      exact ih _ _
    · simp only [process_records, h, if_false]
      exact ih _ _

theorem seq_from_append (a : Nat) : ∀ s b,
    seq_from s (a + b) = seq_from s a ++ seq_from (s + a) b := by
  induction a with
  | zero => intro s b; simp [seq_from]
  | succ a ih =>
    intro s b
    have h1 : a + 1 + b = (a + b) + 1 := by omega
    rw [h1]
    show s :: seq_from (s + 1) (a + b)
        = (s :: seq_from (s + 1) a) ++ seq_from (s + (a + 1)) b
    rw [List.cons_append, ih (s + 1) b]
    have h2 : s + 1 + a = s + (a + 1) := by omega
    rw [h2]

theorem process_records_seqno (a : Nat → Bool) (rs : List drv_record) :
    ∀ ctx n,
      ctx.next_seqno + (process_records a ctx n rs).published.length < U64 →
      (process_records a ctx n rs).published.map (fun ri => ri.record.seqno)
          = seq_from ctx.next_seqno (process_records a ctx n rs).published.length ∧
      (process_records a ctx n rs).ctx.next_seqno
          = ctx.next_seqno + (process_records a ctx n rs).published.length := by
  induction rs with
  | nil => intro ctx n h; simp [process_records, seq_from]
  | cons r rest ih =>
    intro ctx n h
    by_cases ha : a n
    · simp only [process_records, ha, if_true, List.length_cons, List.map_cons] at h ⊢
      have hs1 : ctx.next_seqno + 1 < U64 := by omega
      have hmod : (ctx.next_seqno + 1) % U64 = ctx.next_seqno + 1 :=
        Nat.mod_eq_of_lt hs1
      simp only [hmod] at h ⊢
      have hh : fdctx.next_seqno ⟨ctx.drv_id, ctx.next_seqno + 1, ctx.queues⟩ +
          (process_records a ⟨ctx.drv_id, ctx.next_seqno + 1, ctx.queues⟩
            (n + 1) rest).published.length < U64 := by
        show ctx.next_seqno + 1 + _ < U64
        omega
      have ih3 := ih ⟨ctx.drv_id, ctx.next_seqno + 1, ctx.queues⟩ (n + 1) hh
      have h1 : (process_records a ⟨ctx.drv_id, ctx.next_seqno + 1, ctx.queues⟩
            (n + 1) rest).published.map (fun ri => ri.record.seqno)
          = seq_from (ctx.next_seqno + 1)
            (process_records a ⟨ctx.drv_id, ctx.next_seqno + 1, ctx.queues⟩
              (n + 1) rest).published.length := ih3.1
      have h2 : (process_records a ⟨ctx.drv_id, ctx.next_seqno + 1, ctx.queues⟩
            (n + 1) rest).ctx.next_seqno
          = ctx.next_seqno + 1 +
            (process_records a ⟨ctx.drv_id, ctx.next_seqno + 1, ctx.queues⟩
              (n + 1) rest).published.length := ih3.2
      refine ⟨?_, by omega⟩
      simp only [seq_from, List.cons.injEq]
      exact ⟨by trivial, h1⟩
    · simp only [process_records, ha, if_false] at h ⊢
      exact ih ctx (n + 1) h

theorem process_records_pushes (a : Nat → Bool) (rs : List drv_record) :
    ∀ ctx n,
      (process_records a ctx n rs).pushes
        = (process_records a ctx n rs).published.flatMap
            (fun ri => ctx.queues.map (fun q => (q, ri))) ∧
      ∀ ri ∈ (process_records a ctx n rs).published,
        ri.refcount = ctx.queues.length := by
  induction rs with
  | nil => intro ctx n; simp [process_records]
  | cons r rest ih =>
    intro ctx n
    by_cases ha : a n
    · simp only [process_records, ha, if_true]
      have ih2 := ih ⟨ctx.drv_id, (ctx.next_seqno + 1) % U64, ctx.queues⟩ (n + 1)
      constructor
      · rw [List.flatMap_cons, ih2.1]
      · intro ri hri
        rcases List.mem_cons.mp hri with h | h
        · rw [h]
        · exact ih2.2 ri h
    · simp only [process_records, ha, if_false]
      exact ih ctx (n + 1)

theorem process_records_published_data (a : Nat → Bool) (rs : List drv_record) :
    ∀ ctx n,
      (process_records a ctx n rs).published.map
          (fun ri => (ri.record.data_id, ri.record.payload))
        = (alloc_filter a n rs).map (fun r => (r.data_id, r.payload)) ∧
      (process_records a ctx n rs).published.length
        = (alloc_filter a n rs).length := by
  induction rs with
  | nil => intro ctx n; simp [process_records, alloc_filter]
  | cons r rest ih =>
    intro ctx n
    by_cases ha : a n
    · simp only [process_records, alloc_filter, ha, if_true, List.map_cons,
        List.length_cons]
      have ih2 := ih ⟨ctx.drv_id, (ctx.next_seqno + 1) % U64, ctx.queues⟩ (n + 1)
      exact ⟨by rw [ih2.1], by rw [ih2.2]⟩
    · simp only [process_records, alloc_filter, ha, if_false]
      exact ih ctx (n + 1)

theorem io_read_loop_zero (p : List Nat → parse_result) (a : Nat → Bool)
    (ctx : fdctx) (w : List Nat) (n : Nat) :
    io_read_loop p a 0 ctx w n = ⟨.ok, ctx, [], [], [], n⟩ := rfl

theorem io_read_loop_nilw (p : List Nat → parse_result) (a : Nat → Bool)
    (fuel : Nat) (ctx : fdctx) (w : List Nat) (n : Nat) (h : w.length = 0) :
    io_read_loop p a (fuel + 1) ctx w n = ⟨.ok, ctx, [], [], [], n⟩ := by
  simp [io_read_loop, h]

theorem io_read_loop_err (p : List Nat → parse_result) (a : Nat → Bool)
    (fuel : Nat) (ctx : fdctx) (w : List Nat) (n : Nat)
    (h0 : w.length ≠ 0) (he : (p w).err ≠ HOUND_OK) :
    io_read_loop p a (fuel + 1) ctx w n
      = ⟨.ret (p w).err, ctx, [], [], [⟨w, s_records_len, p w⟩], n⟩ := by
  simp [io_read_loop, h0, he]

theorem io_read_loop_assert_lte (p : List Nat → parse_result) (a : Nat → Bool)
    (fuel : Nat) (ctx : fdctx) (w : List Nat) (n : Nat)
    (h0 : w.length ≠ 0) (he : (p w).err = HOUND_OK)
    (hb : w.length < (p w).bytes) :
    io_read_loop p a (fuel + 1) ctx w n
      = ⟨.abort, ctx, [], [], [⟨w, s_records_len, p w⟩], n⟩ := by
  simp [io_read_loop, h0, he, hb]

theorem io_read_loop_break (p : List Nat → parse_result) (a : Nat → Bool)
    (fuel : Nat) (ctx : fdctx) (w : List Nat) (n : Nat)
    (h0 : w.length ≠ 0) (he : (p w).err = HOUND_OK)
    (heq : (p w).bytes = w.length) :
    io_read_loop p a (fuel + 1) ctx w n
      = ⟨.ok, ctx, [], [], [⟨w, s_records_len, p w⟩], n⟩ := by
  simp [io_read_loop, h0, he, heq]

theorem io_read_loop_assert_cnt (p : List Nat → parse_result) (a : Nat → Bool)
    (fuel : Nat) (ctx : fdctx) (w : List Nat) (n : Nat)
    (h0 : w.length ≠ 0) (he : (p w).err = HOUND_OK)
    (hb : ¬ w.length < (p w).bytes) (hne : (p w).bytes ≠ w.length)
    (hr : (p w).records.length = 0) :
    io_read_loop p a (fuel + 1) ctx w n
      = ⟨.abort, ctx, [], [], [⟨w, s_records_len, p w⟩], n⟩ := by
  simp [io_read_loop, h0, he, hb, hne, hr]

theorem io_read_loop_step (p : List Nat → parse_result) (a : Nat → Bool)
    (fuel : Nat) (ctx : fdctx) (w : List Nat) (n : Nat)
    (h0 : w.length ≠ 0) (he : (p w).err = HOUND_OK)
    (hb : ¬ w.length < (p w).bytes) (hne : (p w).bytes ≠ w.length)
    (hr : (p w).records.length ≠ 0) :
    io_read_loop p a (fuel + 1) ctx w n
      = ⟨(io_read_loop p a fuel (process_records a ctx n (p w).records).ctx
            (w.drop (w.length - (p w).bytes))
            (process_records a ctx n (p w).records).acount).status,
         (io_read_loop p a fuel (process_records a ctx n (p w).records).ctx
            (w.drop (w.length - (p w).bytes))
            (process_records a ctx n (p w).records).acount).ctx,
         (process_records a ctx n (p w).records).published ++
           (io_read_loop p a fuel (process_records a ctx n (p w).records).ctx
              (w.drop (w.length - (p w).bytes))
              (process_records a ctx n (p w).records).acount).published,
         (process_records a ctx n (p w).records).pushes ++
           (io_read_loop p a fuel (process_records a ctx n (p w).records).ctx
              (w.drop (w.length - (p w).bytes))
              (process_records a ctx n (p w).records).acount).pushes,
         ⟨w, s_records_len, p w⟩ ::
           (io_read_loop p a fuel (process_records a ctx n (p w).records).ctx
              (w.drop (w.length - (p w).bytes))
              (process_records a ctx n (p w).records).acount).calls,
         (io_read_loop p a fuel (process_records a ctx n (p w).records).ctx
            (w.drop (w.length - (p w).bytes))
            (process_records a ctx n (p w).records).acount).acount⟩ := by
  simp [io_read_loop, h0, he, hb, hne, hr]

theorem io_read_loop_nil (p : List Nat → parse_result) (a : Nat → Bool)
    (fuel : Nat) (ctx : fdctx) (n : Nat) :
    io_read_loop p a fuel ctx [] n = ⟨.ok, ctx, [], [], [], n⟩ := by
  cases fuel
  · rfl
  · exact io_read_loop_nilw _ _ _ _ _ _ rfl

theorem io_read_loop_ctx (p : List Nat → parse_result) (a : Nat → Bool) :
    ∀ fuel ctx w n,
      (io_read_loop p a fuel ctx w n).ctx.drv_id = ctx.drv_id ∧
      (io_read_loop p a fuel ctx w n).ctx.queues = ctx.queues := by
  intro fuel
  induction fuel with
  | zero => intro ctx w n; rw [io_read_loop_zero]; exact ⟨rfl, rfl⟩
  | succ fuel ih =>
    intro ctx w n
    by_cases h0 : w.length = 0
    · rw [io_read_loop_nilw p a fuel ctx w n h0]; exact ⟨rfl, rfl⟩
    by_cases he : (p w).err = HOUND_OK
    case neg => rw [io_read_loop_err p a fuel ctx w n h0 he]; exact ⟨rfl, rfl⟩
    by_cases hb : w.length < (p w).bytes
    · rw [io_read_loop_assert_lte p a fuel ctx w n h0 he hb]; exact ⟨rfl, rfl⟩
    by_cases hq : (p w).bytes = w.length
    · rw [io_read_loop_break p a fuel ctx w n h0 he hq]; exact ⟨rfl, rfl⟩
    by_cases hr : (p w).records.length = 0
    · rw [io_read_loop_assert_cnt p a fuel ctx w n h0 he hb hq hr]
      exact ⟨rfl, rfl⟩
    · rw [io_read_loop_step p a fuel ctx w n h0 he hb hq hr]
      have hc := process_records_ctx a (p w).records ctx n
      have hl := ih (process_records a ctx n (p w).records).ctx
        (w.drop (w.length - (p w).bytes))
        (process_records a ctx n (p w).records).acount
      exact ⟨hl.1.trans hc.1, hl.2.trans hc.2⟩

theorem io_read_loop_seqno (p : List Nat → parse_result) (a : Nat → Bool) :
    ∀ fuel ctx w n,
      ctx.next_seqno + (io_read_loop p a fuel ctx w n).published.length < U64 →
      (io_read_loop p a fuel ctx w n).published.map (fun ri => ri.record.seqno)
          = seq_from ctx.next_seqno
              (io_read_loop p a fuel ctx w n).published.length ∧
      (io_read_loop p a fuel ctx w n).ctx.next_seqno
          = ctx.next_seqno + (io_read_loop p a fuel ctx w n).published.length := by
  intro fuel
  induction fuel with
  | zero => intro ctx w n h; rw [io_read_loop_zero]; exact ⟨rfl, rfl⟩
  | succ fuel ih =>
    intro ctx w n h
    by_cases h0 : w.length = 0
    · rw [io_read_loop_nilw p a fuel ctx w n h0]; exact ⟨rfl, rfl⟩
    by_cases he : (p w).err = HOUND_OK
    case neg => rw [io_read_loop_err p a fuel ctx w n h0 he]; exact ⟨rfl, rfl⟩
    by_cases hb : w.length < (p w).bytes
    · rw [io_read_loop_assert_lte p a fuel ctx w n h0 he hb]; exact ⟨rfl, rfl⟩
    by_cases hq : (p w).bytes = w.length
    · rw [io_read_loop_break p a fuel ctx w n h0 he hq]; exact ⟨rfl, rfl⟩
    by_cases hr : (p w).records.length = 0
    · rw [io_read_loop_assert_cnt p a fuel ctx w n h0 he hb hq hr]
      exact ⟨rfl, rfl⟩
    · rw [io_read_loop_step p a fuel ctx w n h0 he hb hq hr] at h ⊢
      simp only [List.length_append, List.map_append] at h ⊢
      have hf1 : ctx.next_seqno +
          (process_records a ctx n (p w).records).published.length < U64 := by
        omega
      have hf := process_records_seqno a (p w).records ctx n hf1
      have hr1 : (process_records a ctx n (p w).records).ctx.next_seqno +
          (io_read_loop p a fuel (process_records a ctx n (p w).records).ctx
            (w.drop (w.length - (p w).bytes))
            (process_records a ctx n (p w).records).acount).published.length
          < U64 := by
        rw [hf.2]; omega
      have hrest := ih (process_records a ctx n (p w).records).ctx
        (w.drop (w.length - (p w).bytes))
        (process_records a ctx n (p w).records).acount hr1
      constructor
      · rw [hf.1, hrest.1, hf.2, seq_from_append]
      · rw [hrest.2, hf.2]; omega

theorem io_read_loop_pushes (p : List Nat → parse_result) (a : Nat → Bool) :
    ∀ fuel ctx w n,
      (io_read_loop p a fuel ctx w n).pushes
        = (io_read_loop p a fuel ctx w n).published.flatMap
            (fun ri => ctx.queues.map (fun q => (q, ri))) ∧
      ∀ ri ∈ (io_read_loop p a fuel ctx w n).published,
        ri.refcount = ctx.queues.length := by
  intro fuel
  induction fuel with
  | zero => intro ctx w n; rw [io_read_loop_zero]; exact ⟨rfl, by simp⟩
  | succ fuel ih =>
    intro ctx w n
    by_cases h0 : w.length = 0
    · rw [io_read_loop_nilw p a fuel ctx w n h0]; exact ⟨rfl, by simp⟩
    by_cases he : (p w).err = HOUND_OK
    case neg => rw [io_read_loop_err p a fuel ctx w n h0 he]; exact ⟨rfl, by simp⟩
    by_cases hb : w.length < (p w).bytes
    · rw [io_read_loop_assert_lte p a fuel ctx w n h0 he hb]; exact ⟨rfl, by simp⟩
    by_cases hq : (p w).bytes = w.length
    · rw [io_read_loop_break p a fuel ctx w n h0 he hq]; exact ⟨rfl, by simp⟩
    by_cases hr : (p w).records.length = 0
    · rw [io_read_loop_assert_cnt p a fuel ctx w n h0 he hb hq hr]
      exact ⟨rfl, by simp⟩
    · rw [io_read_loop_step p a fuel ctx w n h0 he hb hq hr]
      have hf := process_records_pushes a (p w).records ctx n
      have hcq := (process_records_ctx a (p w).records ctx n).2
      have hrest := ih (process_records a ctx n (p w).records).ctx
        (w.drop (w.length - (p w).bytes))
        (process_records a ctx n (p w).records).acount
      rw [hcq] at hrest
      constructor
      · show (process_records a ctx n (p w).records).pushes ++
            (io_read_loop p a fuel (process_records a ctx n (p w).records).ctx
              (w.drop (w.length - (p w).bytes))
              (process_records a ctx n (p w).records).acount).pushes
          = ((process_records a ctx n (p w).records).published ++
              (io_read_loop p a fuel (process_records a ctx n (p w).records).ctx
                (w.drop (w.length - (p w).bytes))
                (process_records a ctx n (p w).records).acount).published).flatMap
              (fun ri => ctx.queues.map (fun q => (q, ri)))
        rw [List.flatMap_append, hf.1, hrest.1]
      · intro ri hri
        have hri2 : ri ∈ (process_records a ctx n (p w).records).published ++
            (io_read_loop p a fuel (process_records a ctx n (p w).records).ctx
              (w.drop (w.length - (p w).bytes))
              (process_records a ctx n (p w).records).acount).published := hri
        rcases List.mem_append.mp hri2 with hm | hm
        · exact hf.2 ri hm
        · exact hrest.2 ri hm

theorem io_read_loop_chain (p : List Nat → parse_result) (a : Nat → Bool) :
    ∀ fuel ctx w n, w.length ≤ fuel →
      parse_chain p (io_read_loop p a fuel ctx w n).calls ∧
      (w ≠ [] → (io_read_loop p a fuel ctx w n).calls.head?
          = some ⟨w, s_records_len, p w⟩) ∧
      (∀ c, (io_read_loop p a fuel ctx w n).calls.getLast? = some c →
          c.res.err ≠ HOUND_OK ∨ c.window.length ≤ c.res.bytes ∨
          c.res.records = [] ∨ c.res.bytes = 0) := by
  intro fuel
  induction fuel with
  | zero =>
    intro ctx w n hfl
    have hw : w = [] := List.length_eq_zero.mp (Nat.le_zero.mp hfl)
    subst hw
    rw [io_read_loop_zero]
    exact ⟨trivial, fun h => absurd rfl h, fun c hc => by simp at hc⟩
  | succ fuel ih =>
    intro ctx w n hfl
    by_cases h0 : w.length = 0
    · have hw : w = [] := List.length_eq_zero.mp h0
      subst hw
      rw [io_read_loop_nil]
      exact ⟨trivial, fun h => absurd rfl h, fun c hc => by simp at hc⟩
    by_cases he : (p w).err = HOUND_OK
    case neg =>
      rw [io_read_loop_err p a fuel ctx w n h0 he]
      refine ⟨⟨rfl, rfl⟩, fun _ => rfl, fun c hc => ?_⟩
      have hcc : (⟨w, s_records_len, p w⟩ : parse_call) = c := by simpa using hc
      rw [← hcc]
      exact Or.inl he
    by_cases hb : w.length < (p w).bytes
    · rw [io_read_loop_assert_lte p a fuel ctx w n h0 he hb]
      refine ⟨⟨rfl, rfl⟩, fun _ => rfl, fun c hc => ?_⟩
      have hcc : (⟨w, s_records_len, p w⟩ : parse_call) = c := by simpa using hc
      rw [← hcc]
      exact Or.inr (Or.inl (Nat.le_of_lt hb))
    by_cases hq : (p w).bytes = w.length
    · rw [io_read_loop_break p a fuel ctx w n h0 he hq]
      refine ⟨⟨rfl, rfl⟩, fun _ => rfl, fun c hc => ?_⟩
      have hcc : (⟨w, s_records_len, p w⟩ : parse_call) = c := by simpa using hc
      rw [← hcc]
      exact Or.inr (Or.inl (Nat.le_of_eq hq.symm))
    by_cases hr : (p w).records.length = 0
    · rw [io_read_loop_assert_cnt p a fuel ctx w n h0 he hb hq hr]
      refine ⟨⟨rfl, rfl⟩, fun _ => rfl, fun c hc => ?_⟩
      have hcc : (⟨w, s_records_len, p w⟩ : parse_call) = c := by simpa using hc
      rw [← hcc]
      exact Or.inr (Or.inr (Or.inl (List.length_eq_zero.mp hr)))
    · rw [io_read_loop_step p a fuel ctx w n h0 he hb hq hr]
      have hble : (p w).bytes ≤ w.length := Nat.le_of_not_lt hb
      have hwlen : (w.drop (w.length - (p w).bytes)).length = (p w).bytes := by
        rw [List.length_drop]; omega
      have hfle : (w.drop (w.length - (p w).bytes)).length ≤ fuel := by
        rw [hwlen]; omega
      obtain ⟨ich, ihd, ila⟩ := ih (process_records a ctx n (p w).records).ctx
        (w.drop (w.length - (p w).bytes))
        (process_records a ctx n (p w).records).acount hfle
      set R := io_read_loop p a fuel
        (process_records a ctx n (p w).records).ctx
        (w.drop (w.length - (p w).bytes))
        (process_records a ctx n (p w).records).acount with hR
      dsimp only
      refine ⟨?_, fun _ => rfl, ?_⟩
      · cases hc : R.calls with
        | nil => exact ⟨rfl, rfl⟩
        | cons c2 more =>
          have hwne2 : w.drop (w.length - (p w).bytes) ≠ [] := by
            intro hnil
            rw [hnil, io_read_loop_nil] at hR
            rw [hR] at hc
            simp at hc
          have hb0 : 0 < (p w).bytes := by
            have hlen : (w.drop (w.length - (p w).bytes)).length ≠ 0 :=
              fun hz => hwne2 (List.length_eq_zero.mp hz)
            omega
          have hcn := ihd hwne2
          rw [hc] at hcn
          have hc2 : c2 = ⟨w.drop (w.length - (p w).bytes), s_records_len,
              p (w.drop (w.length - (p w).bytes))⟩ := by
            simpa using hcn
          refine ⟨rfl, rfl, ?_, ?_, ?_, ?_, ?_, ?_⟩
          · show (p w).err = HOUND_OK
            exact he
          · show (p w).bytes < w.length
            omega
          · show 0 < (p w).bytes
            exact hb0
          · show (p w).records ≠ []
            exact fun hh => hr (by rw [hh]; rfl)
          · show c2.window = w.drop (w.length - (p w).bytes)
            rw [hc2]
          · rw [← hc]
            exact ich
      · intro c hcl
        have hcl2 : (⟨w, s_records_len, p w⟩ :: R.calls).getLast? = some c := hcl
        clear hcl
        cases hc : R.calls with
        | nil =>
          rw [hc] at hcl2
          have hcc : (⟨w, s_records_len, p w⟩ : parse_call) = c := by
            simpa using hcl2
          rw [← hcc]
          have hwnil : w.drop (w.length - (p w).bytes) = [] := by
            by_contra hne
            have hcn := ihd hne
            rw [hc] at hcn
            simp at hcn
          have hbz : (p w).bytes = 0 := by
            have hlen := congrArg List.length hwnil
            rw [hwlen] at hlen
            simpa using hlen
          exact Or.inr (Or.inr (Or.inr hbz))
        | cons c2 more =>
          rw [hc, List.getLast?_cons_cons] at hcl2
          exact ila c (by rw [hc]; exact hcl2)

theorem schema_parse_loop_acc (push_ok : Nat → Bool) :
    ∀ docs k acc,
      (schema_parse_loop push_ok k acc docs).2
        = acc ++ pushed_descs push_ok k docs := by
  intro docs
  induction docs with
  | nil => intro k acc; simp [schema_parse_loop, pushed_descs]
  | cons dr rest ih =>
    intro k acc
    cases hpk : push_ok k with
    | false => simp [schema_parse_loop, pushed_descs, hpk]
    | true =>
      cases dr with
      | good d =>
        simp only [schema_parse_loop, pushed_descs, hpk, Bool.not_true,
          Bool.false_eq_true, if_false]
        rw [ih (k + 1) (acc ++ [d])]
        simp
      | bad d e =>
        simp [schema_parse_loop, pushed_descs, hpk]

/-- Sample parse-style driver used by concrete witnesses: on a three-byte
window it consumes two bytes and produces two records; on any other window
it consumes nothing. -/
def pW : List Nat → parse_result := fun w =>
  if w.length = 3 then ⟨HOUND_OK, 1, [⟨7, 0⟩, ⟨8, 1⟩]⟩
  else ⟨HOUND_OK, w.length, []⟩

/-- Sample failing parse-style driver used by concrete witnesses. -/
def pErrW : List Nat → parse_result := fun _ => ⟨-19, 2, []⟩

/-- Allocation oracle that always succeeds. -/
def allocW : Nat → Bool := fun _ => true

/-- Allocation oracle that fails exactly on the second allocation. -/
def allocW2 : Nat → Bool := fun n => n != 1

/-- Sample fd context with two attached queues. -/
def ctxW : fdctx := ⟨5, 0, [1, 2]⟩

/-- Sample io_read error oracle: fd 4 fails with an I/O error. -/
def readfW : Int → Int := fun fd => if fd = 4 then HOUND_IO_ERROR else HOUND_OK

/-- Sample ready pollfd on fd 4. -/
def pfdW : pollfd := ⟨4, POLL_HAS_DATA, 1⟩

/-- Sample tail of the pollfd array: one more ready fd. -/
def restW : List pollfd := [⟨6, POLL_HAS_DATA, 1⟩]

/-- Claim C1: for every driver fd registered with the I/O loop, the sequence
numbers assigned to records pushed to its attached queues start at 0 when the
fd is added (a successful `io_add_fd` appends an fdctx with `next_seqno = 0`)
and increase consecutively by 1 in production order with no gaps (absent
`uint64` wraparound); the counter is the single per-fd `next_seqno` field of
the fdctx, shared by all data ids of that driver instance. -/
theorem claim_seqno_starts_zero_consecutive :
    (∀ st fd drv o1 o2 o3,
        (io_add_fd st fd drv o1 o2 o3).err = HOUND_OK →
        (io_add_fd st fd drv o1 o2 o3).st.ctx.getLast? = some ⟨drv, 0, []⟩) ∧
    (∀ p a ctx buf n,
        ctx.next_seqno + (io_read_parse p a ctx buf n).published.length < U64 →
        (io_read_parse p a ctx buf n).published.map (fun ri => ri.record.seqno)
          = seq_from ctx.next_seqno
              (io_read_parse p a ctx buf n).published.length) := by
  constructor
  · intro st fd drv o1 o2 o3 h
    cases o1 with
    | false => simp [io_add_fd, HOUND_OOM, HOUND_OK] at h
    | true =>
      cases o2 with
      | false => simp [io_add_fd, HOUND_OOM, HOUND_OK] at h
      | true =>
        cases o3 with
        | false => simp [io_add_fd, HOUND_OOM, HOUND_OK] at h
        | true => simp [io_add_fd]
  · intro p a ctx buf n h
    exact (io_read_loop_seqno p a buf.length ctx buf n h).1

/-- Witness for C1 at a concrete state and driver: the fdctx appended by
`io_add_fd` starts at seqno 0, and a two-record cycle publishes seqnos 0, 1. -/
theorem claim_seqno_starts_zero_consecutive_witness :
    ((io_add_fd ⟨[], []⟩ 3 5 true true true).err = HOUND_OK ∧
     (io_add_fd ⟨[], []⟩ 3 5 true true true).st.ctx.getLast? = some ⟨5, 0, []⟩) ∧
    (ctxW.next_seqno +
        (io_read_parse pW allocW ctxW [9, 9, 9] 0).published.length < U64 ∧
     (io_read_parse pW allocW ctxW [9, 9, 9] 0).published.map
         (fun ri => ri.record.seqno)
       = seq_from ctxW.next_seqno
           (io_read_parse pW allocW ctxW [9, 9, 9] 0).published.length) :=
  ⟨⟨by decide,
    claim_seqno_starts_zero_consecutive.1 ⟨[], []⟩ 3 5 true true true (by decide)⟩,
   ⟨by decide,
    claim_seqno_starts_zero_consecutive.2 pW allocW ctxW [9, 9, 9] 0 (by decide)⟩⟩

/-- Claim C2: every record published in an I/O cycle gets its wrapper's
refcount initialized to exactly the number of queues attached to that fd at
publication time, and the wrapper is pushed once to each of those queues (the
push events are precisely one per attached queue per published wrapper, in
order). -/
theorem claim_refcount_equals_fanout :
    ∀ p a ctx buf n,
      (io_read_parse p a ctx buf n).pushes
        = (io_read_parse p a ctx buf n).published.flatMap
            (fun ri => ctx.queues.map (fun q => (q, ri))) ∧
      ∀ ri ∈ (io_read_parse p a ctx buf n).published,
        ri.refcount = ctx.queues.length :=
  fun p a ctx buf n => io_read_loop_pushes p a buf.length ctx buf n

/-- Witness for C2: with two attached queues, a concrete published wrapper
has refcount 2 and the push list fans each wrapper out to queues 1 and 2. -/
theorem claim_refcount_equals_fanout_witness :
    (io_read_parse pW allocW ctxW [9, 9, 9] 0).pushes
      = (io_read_parse pW allocW ctxW [9, 9, 9] 0).published.flatMap
          (fun ri => ctxW.queues.map (fun q => (q, ri))) ∧
    (⟨⟨0, 7, 5, 0⟩, 2⟩ : record_info)
        ∈ (io_read_parse pW allocW ctxW [9, 9, 9] 0).published ∧
    (⟨⟨0, 7, 5, 0⟩, 2⟩ : record_info).refcount = ctxW.queues.length :=
  ⟨(claim_refcount_equals_fanout pW allocW ctxW [9, 9, 9] 0).1,
   by decide,
   (claim_refcount_equals_fanout pW allocW ctxW [9, 9, 9] 0).2 _ (by decide)⟩

/-- Claim C3: the parse-style read cycle advances the buffer position by
exactly the consumed byte count after each parse call (the next window is the
previous one dropped by consumed bytes), re-invokes parse only while the
driver consumed a nonzero number of bytes and bytes remain, stops as soon as
the driver leaves the byte count unchanged, and the cycle's last call is
always followed by discarding the unconsumed bytes: the loop ends exactly
when the driver erred, left the byte count unchanged (or over-consumed, which
asserts), produced no records, or no bytes remain. -/
theorem claim_parse_loop_contract :
    ∀ p a ctx w n,
      parse_chain p (io_read_parse p a ctx w n).calls ∧
      (w ≠ [] → (io_read_parse p a ctx w n).calls.head?
          = some ⟨w, s_records_len, p w⟩) ∧
      (∀ c, (io_read_parse p a ctx w n).calls.getLast? = some c →
          c.res.err ≠ HOUND_OK ∨ c.window.length ≤ c.res.bytes ∨
          c.res.records = [] ∨ c.res.bytes = 0) :=
  fun p a ctx w n => io_read_loop_chain p a w.length ctx w n (Nat.le_refl _)

/-- Witness for C3 on a concrete two-call cycle: the first call hands the
whole buffer, the second call's window is the unconsumed single byte, and the
cycle stops there because the driver leaves the byte count unchanged. -/
theorem claim_parse_loop_contract_witness :
    parse_chain pW (io_read_parse pW allocW ctxW [9, 9, 9] 0).calls ∧
    (([9, 9, 9] : List Nat) ≠ [] ∧
     (io_read_parse pW allocW ctxW [9, 9, 9] 0).calls.head?
       = some ⟨[9, 9, 9], s_records_len, pW [9, 9, 9]⟩) ∧
    ((io_read_parse pW allocW ctxW [9, 9, 9] 0).calls.getLast?
       = some ⟨[9], s_records_len, pW [9]⟩ ∧
     ((⟨[9], s_records_len, pW [9]⟩ : parse_call).res.err ≠ HOUND_OK ∨
      (⟨[9], s_records_len, pW [9]⟩ : parse_call).window.length
        ≤ (⟨[9], s_records_len, pW [9]⟩ : parse_call).res.bytes ∨
      (⟨[9], s_records_len, pW [9]⟩ : parse_call).res.records = [] ∨
      (⟨[9], s_records_len, pW [9]⟩ : parse_call).res.bytes = 0)) :=
  ⟨(claim_parse_loop_contract pW allocW ctxW [9, 9, 9] 0).1,
   ⟨by decide, (claim_parse_loop_contract pW allocW ctxW [9, 9, 9] 0).2.1 (by decide)⟩,
   ⟨by decide,
    (claim_parse_loop_contract pW allocW ctxW [9, 9, 9] 0).2.2 _ (by decide)⟩⟩

/-- Claim C4: a pause signal delivered at any point between `pause()`'s
`pthread_kill` and the I/O thread's next `ppoll` still interrupts that wait.
In the signal model (the signal is pending, the original mask `s_origset`
does not block it, and every step before the wait runs with the signal
blocked so the pending signal cannot be consumed), whenever the step list
reaches a `ppoll` wait at all, the first such wait returns interrupted. -/
theorem claim_pause_signal_not_lost :
    ∀ steps, io_thread_step.ppoll_wait ∈ steps →
      first_wait_interrupted false true steps = some true := by
  intro steps h
  induction steps with
  | nil => simp at h
  | cons s rest ih =>
    cases s with
    | compute =>
      have h2 : io_thread_step.ppoll_wait ∈ rest := by
        rcases List.mem_cons.mp h with h1 | h1
        · exact absurd h1 (by simp)
        · exact h1
      exact ih h2
    | ppoll_wait => rfl

/-- Witness for C4: a signal pending across two compute steps still
interrupts the following wait. -/
theorem claim_pause_signal_not_lost_witness :
    io_thread_step.ppoll_wait ∈
      [io_thread_step.compute, io_thread_step.compute, io_thread_step.ppoll_wait] ∧
    first_wait_interrupted false true
        [io_thread_step.compute, io_thread_step.compute, io_thread_step.ppoll_wait]
      = some true :=
  ⟨by decide, claim_pause_signal_not_lost _ (by decide)⟩

/-- Claim C5, divergence: on EINTR the wait-failure handling of `io_poll`
does return to the ready-wait step, but on ENOMEM (and likewise EIO) the code
logs the errno and then falls into `XASSERT_GT(fds, 0)` with `fds = -1`, so
the process terminates instead of going back to the ready-wait step as the
claim states. -/
theorem claim_poll_wait_error_handling :
    io_poll_wake .intr = ([], .back_to_wait) ∧
    io_poll_wake .enomem = ([ENOMEM_errno], .abort) ∧
    io_poll_wake .eio = ([EIO_errno], .abort) :=
  ⟨rfl, rfl, rfl⟩

/-- Claim C6: a failing parse call makes `io_read` return that error (with
nothing further published in that call), and the fd scan of `io_poll` logs
the error and continues with the remaining readable fds of the same cycle
exactly as it would have otherwise; the scan produces no error value that
could surface to a user-facing API. -/
theorem claim_parse_error_logged_loop_continues :
    (∀ p a ctx w n, w ≠ [] → (p w).err ≠ HOUND_OK →
        (io_read_parse p a ctx w n).status = .ret (p w).err ∧
        (io_read_parse p a ctx w n).published = []) ∧
    (∀ readf pfd rest fds,
        pfd.revents ≠ 0 → pfd.revents &&& POLL_HAS_DATA ≠ 0 → 0 < fds →
        readf pfd.fd ≠ HOUND_OK → readf pfd.fd ≠ HOUND_INTR →
        io_poll_fd_loop readf (pfd :: rest) fds
          = ⟨pfd.fd :: (io_poll_fd_loop readf rest (fds - 1)).processed,
             readf pfd.fd :: (io_poll_fd_loop readf rest (fds - 1)).logged,
             (io_poll_fd_loop readf rest (fds - 1)).aborted⟩) := by
  constructor
  · intro p a ctx w n hw he
    have h0 : w.length ≠ 0 := fun hz => hw (List.length_eq_zero.mp hz)
    show (io_read_loop p a w.length ctx w n).status = _ ∧
      (io_read_loop p a w.length ctx w n).published = []
    cases hlen : w.length with
    | zero => exact absurd hlen h0
    | succ m =>
      rw [io_read_loop_err p a m ctx w n h0 he]
      exact ⟨rfl, rfl⟩
  · intro readf pfd rest fds h1 h2 h3 h4 h5
    have h6 : ¬ fds ≤ 0 := by omega
    simp [io_poll_fd_loop, h1, h2, h3, h4, h5, h6]

/-- Witness for C6: a concrete failing driver makes the cycle return its
error, and a concrete two-fd scan logs fd 4's error and still processes
fd 6. -/
theorem claim_parse_error_logged_loop_continues_witness :
    (([9, 9, 9] : List Nat) ≠ [] ∧ (pErrW [9, 9, 9]).err ≠ HOUND_OK ∧
     (io_read_parse pErrW allocW ctxW [9, 9, 9] 0).status
        = .ret (pErrW [9, 9, 9]).err ∧
     (io_read_parse pErrW allocW ctxW [9, 9, 9] 0).published = []) ∧
    (pfdW.revents ≠ 0 ∧ pfdW.revents &&& POLL_HAS_DATA ≠ 0 ∧ (0 : Int) < 2 ∧
     readfW pfdW.fd ≠ HOUND_OK ∧ readfW pfdW.fd ≠ HOUND_INTR ∧
     io_poll_fd_loop readfW (pfdW :: restW) 2
       = ⟨pfdW.fd :: (io_poll_fd_loop readfW restW (2 - 1)).processed,
          readfW pfdW.fd :: (io_poll_fd_loop readfW restW (2 - 1)).logged,
          (io_poll_fd_loop readfW restW (2 - 1)).aborted⟩) :=
  ⟨⟨by decide, by decide,
    (claim_parse_error_logged_loop_continues.1 pErrW allocW ctxW [9, 9, 9] 0
      (by decide) (by decide)).1,
    (claim_parse_error_logged_loop_continues.1 pErrW allocW ctxW [9, 9, 9] 0
      (by decide) (by decide)).2⟩,
   ⟨by decide, by decide, by decide, by decide, by decide,
    claim_parse_error_logged_loop_continues.2 readfW pfdW restW 2
      (by decide) (by decide) (by decide) (by decide) (by decide)⟩⟩

/-- Claim C7, divergence: `io_add_queue`'s failure path returns `HOUND_OOM`
after pausing without ever calling `io_resume_poll`, so not every mutator
releases the pause barrier before returning on failure; its success path and
every path of `io_add_fd` do release the barrier. -/
theorem claim_add_queue_oom_leaves_paused :
    (io_add_queue ⟨5, 0, []⟩ 1 false).1 = HOUND_OOM ∧
    (io_add_queue ⟨5, 0, []⟩ 1 false).2.2 = [barrier_op.pause] ∧
    barrier_op.resume ∉ (io_add_queue ⟨5, 0, []⟩ 1 false).2.2 ∧
    (io_add_queue ⟨5, 0, []⟩ 1 true).2.2
      = [barrier_op.pause, barrier_op.resume] ∧
    ∀ st fd drv o1 o2 o3,
      (io_add_fd st fd drv o1 o2 o3).trace
        = [barrier_op.pause, barrier_op.resume] := by
  refine ⟨by decide, by decide, by decide, by decide, ?_⟩
  intro st fd drv o1 o2 o3
  cases o1 <;> cases o2 <;> cases o3 <;> simp [io_add_fd]

/-- Claim C8: mutator errors surface synchronously with rollback: whenever
schema parsing fails partway, every descriptor pushed so far (including a
partially constructed one) is destroyed and no descriptor array is returned;
and whenever `io_add_fd` fails after pushing the pollfd entry, the entry is
popped again so the shared fd/ctx state is exactly the prior one. -/
theorem claim_mutator_rollback :
    (∀ push_ok oa docs, (schema_parse push_ok oa docs).err ≠ HOUND_OK →
        (schema_parse push_ok oa docs).returned = none ∧
        (schema_parse push_ok oa docs).destroyed = pushed_descs push_ok 0 docs) ∧
    (∀ st fd drv o1 o2 o3, (io_add_fd st fd drv o1 o2 o3).err ≠ HOUND_OK →
        (io_add_fd st fd drv o1 o2 o3).st = st) := by
  constructor
  · intro push_ok oa docs h
    have hacc := schema_parse_loop_acc push_ok docs 0 []
    by_cases h1 : (schema_parse_loop push_ok 0 [] docs).1 = HOUND_OK
    · cases oa with
      | true => exact absurd (by simp [schema_parse, h1]) h
      | false =>
        refine ⟨by simp [schema_parse, h1], ?_⟩
        show (schema_parse push_ok false docs).destroyed = _
        simp only [schema_parse, h1, if_true, Bool.false_eq_true, if_false]
        simpa using hacc
    · refine ⟨by simp [schema_parse, h1], ?_⟩
      simp only [schema_parse, h1, if_false]
      simpa using hacc
  · intro st fd drv o1 o2 o3 h
    cases o1 with
    | false => simp [io_add_fd]
    | true =>
      cases o2 with
      | false => simp [io_add_fd, List.dropLast_concat]
      | true =>
        cases o3 with
        | false => simp [io_add_fd, List.dropLast_concat]
        | true => exact absurd (by simp [io_add_fd]) h

/-- Witness for C8: a schema stream whose second document fails leaves no
returned array and destroys exactly the two pushed descriptors; a concrete
fdctx-allocation failure in `io_add_fd` leaves the prior state intact. -/
theorem claim_mutator_rollback_witness :
    ((schema_parse (fun _ => true) true [.good 3, .bad 4 (-15)]).err ≠ HOUND_OK ∧
     (schema_parse (fun _ => true) true [.good 3, .bad 4 (-15)]).returned = none ∧
     (schema_parse (fun _ => true) true [.good 3, .bad 4 (-15)]).destroyed
       = pushed_descs (fun _ => true) 0 [.good 3, .bad 4 (-15)]) ∧
    ((io_add_fd ⟨[⟨9, 3, 0⟩], [⟨1, 2, [3]⟩]⟩ 7 4 true false true).err ≠ HOUND_OK ∧
     (io_add_fd ⟨[⟨9, 3, 0⟩], [⟨1, 2, [3]⟩]⟩ 7 4 true false true).st
       = ⟨[⟨9, 3, 0⟩], [⟨1, 2, [3]⟩]⟩) :=
  ⟨⟨by decide,
    (claim_mutator_rollback.1 (fun _ => true) true [.good 3, .bad 4 (-15)]
      (by decide)).1,
    (claim_mutator_rollback.1 (fun _ => true) true [.good 3, .bad 4 (-15)]
      (by decide)).2⟩,
   ⟨by decide,
    claim_mutator_rollback.2 ⟨[⟨9, 3, 0⟩], [⟨1, 2, [3]⟩]⟩ 7 4 true false true
      (by decide)⟩⟩

/-- Claim C9: the driver-side record ceiling `HOUND_DRIVER_MAX_RECORDS` is
1000, it equals the spec's ABI constant `MAX_RECORDS_PER_CALL`, and the core
supplies every parse invocation of a read cycle a scratch record array of
exactly that capacity (`s_records`). -/
theorem claim_record_ceiling :
    HOUND_DRIVER_MAX_RECORDS = 1000 ∧
    s_records_len = HOUND_DRIVER_MAX_RECORDS ∧
    MAX_RECORDS_PER_CALL = HOUND_DRIVER_MAX_RECORDS ∧
    ∀ p a fuel ctx w n, ∀ c ∈ (io_read_loop p a fuel ctx w n).calls,
      c.cap = HOUND_DRIVER_MAX_RECORDS := by
  refine ⟨rfl, rfl, rfl, ?_⟩
  intro p a fuel
  induction fuel with
  | zero =>
    intro ctx w n c hc
    rw [io_read_loop_zero] at hc
    simp at hc
  | succ fuel ih =>
    intro ctx w n c hc
    by_cases h0 : w.length = 0
    · rw [io_read_loop_nilw p a fuel ctx w n h0] at hc; simp at hc
    by_cases he : (p w).err = HOUND_OK
    case neg =>
      rw [io_read_loop_err p a fuel ctx w n h0 he] at hc
      have hcc : c = ⟨w, s_records_len, p w⟩ := by simpa using hc
      rw [hcc]; rfl
    by_cases hb : w.length < (p w).bytes
    · rw [io_read_loop_assert_lte p a fuel ctx w n h0 he hb] at hc
      have hcc : c = ⟨w, s_records_len, p w⟩ := by simpa using hc
      rw [hcc]; rfl
    by_cases hq : (p w).bytes = w.length
    · rw [io_read_loop_break p a fuel ctx w n h0 he hq] at hc
      have hcc : c = ⟨w, s_records_len, p w⟩ := by simpa using hc
      rw [hcc]; rfl
    by_cases hr : (p w).records.length = 0
    · rw [io_read_loop_assert_cnt p a fuel ctx w n h0 he hb hq hr] at hc
      have hcc : c = ⟨w, s_records_len, p w⟩ := by simpa using hc
      rw [hcc]; rfl
    · rw [io_read_loop_step p a fuel ctx w n h0 he hb hq hr] at hc
      have hc2 : c ∈ (⟨w, s_records_len, p w⟩ : parse_call) ::
          (io_read_loop p a fuel (process_records a ctx n (p w).records).ctx
            (w.drop (w.length - (p w).bytes))
            (process_records a ctx n (p w).records).acount).calls := hc
      rcases List.mem_cons.mp hc2 with hm | hm
      · rw [hm]; rfl
      · exact ih _ _ _ c hm

/-- Witness for C9: the first parse invocation of a concrete cycle carries
capacity `HOUND_DRIVER_MAX_RECORDS` = 1000. -/
theorem claim_record_ceiling_witness :
    (⟨[9, 9, 9], s_records_len, pW [9, 9, 9]⟩ : parse_call)
        ∈ (io_read_loop pW allocW 3 ctxW [9, 9, 9] 0).calls ∧
    (⟨[9, 9, 9], s_records_len, pW [9, 9, 9]⟩ : parse_call).cap
        = HOUND_DRIVER_MAX_RECORDS :=
  ⟨by decide,
   claim_record_ceiling.2.2.2 pW allocW 3 ctxW [9, 9, 9] 0 _ (by decide)⟩

/-- Claim C10: when allocating the refcounted wrapper for one record fails,
the fan-out loop skips exactly that record without assigning or advancing the
per-fd sequence counter and continues with the remaining records of the same
parse batch: the published records are precisely those whose allocation
succeeded, their sequence numbers are still consecutive from the initial
counter, and the counter advances by exactly the number published. -/
theorem claim_alloc_failure_skips_record :
    ∀ a ctx n rs,
      (process_records a ctx n rs).published.map
          (fun ri => (ri.record.data_id, ri.record.payload))
        = (alloc_filter a n rs).map (fun r => (r.data_id, r.payload)) ∧
      (ctx.next_seqno + (process_records a ctx n rs).published.length < U64 →
        (process_records a ctx n rs).published.map (fun ri => ri.record.seqno)
            = seq_from ctx.next_seqno
                (process_records a ctx n rs).published.length ∧
        (process_records a ctx n rs).ctx.next_seqno
            = ctx.next_seqno + (process_records a ctx n rs).published.length) :=
  fun a ctx n rs =>
    ⟨(process_records_published_data a rs ctx n).1,
     fun h => process_records_seqno a rs ctx n h⟩

/-- Witness for C10: with the second of three allocations failing, the first
and third records are published with consecutive seqnos 0 and 1, and the
counter ends at 2. -/
theorem claim_alloc_failure_skips_record_witness :
    ((process_records allocW2 ctxW 0 [⟨7, 0⟩, ⟨8, 1⟩, ⟨9, 2⟩]).published.map
        (fun ri => (ri.record.data_id, ri.record.payload))
      = (alloc_filter allocW2 0 [⟨7, 0⟩, ⟨8, 1⟩, ⟨9, 2⟩]).map
          (fun r => (r.data_id, r.payload))) ∧
    (ctxW.next_seqno +
        (process_records allocW2 ctxW 0 [⟨7, 0⟩, ⟨8, 1⟩, ⟨9, 2⟩]).published.length
      < U64 ∧
     (process_records allocW2 ctxW 0 [⟨7, 0⟩, ⟨8, 1⟩, ⟨9, 2⟩]).published.map
         (fun ri => ri.record.seqno)
       = seq_from ctxW.next_seqno
           (process_records allocW2 ctxW 0 [⟨7, 0⟩, ⟨8, 1⟩, ⟨9, 2⟩]).published.length ∧
     (process_records allocW2 ctxW 0 [⟨7, 0⟩, ⟨8, 1⟩, ⟨9, 2⟩]).ctx.next_seqno
       = ctxW.next_seqno +
          (process_records allocW2 ctxW 0 [⟨7, 0⟩, ⟨8, 1⟩, ⟨9, 2⟩]).published.length) :=
  ⟨(claim_alloc_failure_skips_record allocW2 ctxW 0 [⟨7, 0⟩, ⟨8, 1⟩, ⟨9, 2⟩]).1,
   by decide,
   (claim_alloc_failure_skips_record allocW2 ctxW 0 [⟨7, 0⟩, ⟨8, 1⟩, ⟨9, 2⟩]).2
     (by decide)⟩

end Hound
